import Mathlib

/-!
Verification of the interactive recompute-gating and mask post-processing
pipeline of the muggled_sam repository, against its specification.

The repository's Python source is shallowly embedded below:
pixel coordinates and image dimensions are natural numbers, continuous
values (normalized coordinates, scores, percentages) are rationals,
images are size-annotated pixel functions, and the stateful objects
(the main display loop, the CheckerPattern compositor cache) are
explicit state-passing functions.
-/

namespace MuggledSam

/-! ## Coordinate normalizer (`SAMV1Model.normalize_xy`, lib/v1_sam/sam_v1_model.py) -/

/-- Embedding of `SAMV1Model.normalize_xy`: maps a list of (x, y) pixel
coordinates into the 0-to-1 range.  The original SAM method centers pixel
coordinates (`(p + 0.5) * (1/dim)`); the alternative maps index 0 to 0.0
and the last index to 1.0 (`p * (1/(dim - 1))`).  Frame shape is (h, w). -/
def normalize_xy (xy_px_list : List (ℚ × ℚ)) (frame_shape : ℕ × ℕ)
    (use_original_SAM_method : Bool := true) : List (ℚ × ℚ) :=
  let frame_h : ℚ := frame_shape.1
  let frame_w : ℚ := frame_shape.2
  if use_original_SAM_method then
    let x_scale := 1 / frame_w
    let y_scale := 1 / frame_h
    xy_px_list.map (fun p => ((p.1 + 1/2) * x_scale, (p.2 + 1/2) * y_scale))
  else
    let x_scale := 1 / (frame_w - 1)
    let y_scale := 1 / (frame_h - 1)
    xy_px_list.map (fun p => (p.1 * x_scale, p.2 * y_scale))

/-- Truncation toward zero, as performed by `np.int32(...)` on a float value. -/
def int32_trunc (q : ℚ) : ℤ :=
  if 0 ≤ q then ⌊q⌋ else ⌈q⌉

/-- Embedding of the coordinate un-normalization step of
`draw_normalized_polygons` (lib/demo_helpers/ui/helpers/images.py):
a normalized (x, y) vertex is scaled by `(frame_w - 1, frame_h - 1)`
and truncated to integer pixel coordinates via `np.int32`. -/
def polygon_norm_to_px (xy_norm : ℚ × ℚ) (frame_shape : ℕ × ℕ) : ℤ × ℤ :=
  let frame_h : ℚ := frame_shape.1
  let frame_w : ℚ := frame_shape.2
  (int32_trunc (xy_norm.1 * (frame_w - 1)), int32_trunc (xy_norm.2 * (frame_h - 1)))

/-- One-dimensional round trip for the center convention: normalizing a pixel
index and scaling back by `d - 1` with truncation lands within 1 pixel. -/
lemma int32_trunc_center_close (p d : ℕ) (hd : 2 ≤ d) (hp : p < d) :
    |int32_trunc ((((p : ℚ) + 1/2) * (1 / d)) * ((d : ℚ) - 1)) - p| ≤ 1 := by
  have hdQ : (2 : ℚ) ≤ (d : ℚ) := by exact_mod_cast hd
  have hd0 : (0 : ℚ) < d := by linarith
  have hpd : (p : ℚ) ≤ (d : ℚ) - 1 := by
    have : (p : ℚ) + 1 ≤ (d : ℚ) := by exact_mod_cast hp
    linarith
  have hp0 : (0 : ℚ) ≤ p := by positivity
  have hveq : (((p : ℚ) + 1/2) * (1 / d)) * ((d : ℚ) - 1)
      = ((p : ℚ) + 1/2) * ((d : ℚ) - 1) / d := by ring
  have hv0 : (0 : ℚ) ≤ (((p : ℚ) + 1/2) * (1 / d)) * ((d : ℚ) - 1) := by
    rw [hveq]
    apply div_nonneg _ (le_of_lt hd0)
    apply mul_nonneg (by linarith) (by linarith)
  rw [int32_trunc, if_pos hv0]
  have hub : (((p : ℚ) + 1/2) * (1 / d)) * ((d : ℚ) - 1) < (p : ℚ) + 1 := by
    rw [hveq, div_lt_iff₀ hd0]
    nlinarith
  have hlb : (p : ℚ) - 1 ≤ (((p : ℚ) + 1/2) * (1 / d)) * ((d : ℚ) - 1) := by
    rw [hveq, le_div_iff₀ hd0]
    nlinarith
  have hfl_ub : ⌊(((p : ℚ) + 1/2) * (1 / d)) * ((d : ℚ) - 1)⌋ < (p : ℤ) + 1 := by
    apply Int.floor_lt.mpr
    push_cast
    linarith
  have hfl_lb : (p : ℤ) - 1 ≤ ⌊(((p : ℚ) + 1/2) * (1 / d)) * ((d : ℚ) - 1)⌋ := by
    apply Int.le_floor.mpr
    push_cast
    linarith
  rw [abs_le]
  omega

/-- One-dimensional round trip for the edge convention: normalizing a pixel
index and scaling back by `d - 1` with truncation is exact. -/
lemma int32_trunc_edge_exact (p d : ℕ) (hd : 2 ≤ d) :
    int32_trunc (((p : ℚ) * (1 / ((d : ℚ) - 1))) * ((d : ℚ) - 1)) = p := by
  have hdQ : (2 : ℚ) ≤ (d : ℚ) := by exact_mod_cast hd
  have hne : (d : ℚ) - 1 ≠ 0 := by
    intro h0
    linarith
  have hveq : ((p : ℚ) * (1 / ((d : ℚ) - 1))) * ((d : ℚ) - 1) = (p : ℚ) := by
    field_simp
  rw [hveq, int32_trunc, if_pos (by positivity : (0 : ℚ) ≤ (p : ℚ))]
  exact Int.floor_natCast p

/-- C2: under the center convention (`use_original_SAM_method = true`) the
normalizer maps pixel (x, y) in a (h, w) frame to ((x + 0.5)/w, (y + 0.5)/h);
under the edge convention it maps to (x/(w - 1), y/(h - 1)), which sends
index 0 to 0.0 and the last index (w - 1, resp. h - 1) to 1.0. -/
theorem normalize_xy_conventions (x y : ℚ) (h w : ℕ) (hh : 2 ≤ h) (hw : 2 ≤ w) :
    normalize_xy [(x, y)] (h, w) true = [((x + 1/2) / w, (y + 1/2) / h)]
    ∧ normalize_xy [(x, y)] (h, w) false = [(x / ((w : ℚ) - 1), y / ((h : ℚ) - 1))]
    ∧ normalize_xy [((0 : ℚ), (0 : ℚ))] (h, w) false = [((0 : ℚ), (0 : ℚ))]
    ∧ normalize_xy [(((w : ℚ) - 1, (h : ℚ) - 1))] (h, w) false = [((1 : ℚ), (1 : ℚ))] := by
  have hwQ : (2 : ℚ) ≤ (w : ℚ) := by exact_mod_cast hw
  have hhQ : (2 : ℚ) ≤ (h : ℚ) := by exact_mod_cast hh
  have hwne : (w : ℚ) - 1 ≠ 0 := by intro h0; linarith
  have hhne : (h : ℚ) - 1 ≠ 0 := by intro h0; linarith
  refine ⟨?_, ?_, ?_, ?_⟩
  · simp only [normalize_xy, if_pos rfl, List.map_cons, List.map_nil, mul_one_div, if_true]
  · simp only [normalize_xy, if_neg (by simp : ¬(false = true)), List.map_cons,
      List.map_nil, mul_one_div, if_false]
  · simp [normalize_xy]
  · simp only [normalize_xy, if_neg (by simp : ¬(false = true)), List.map_cons,
      List.map_nil, mul_one_div]
    rw [div_self hwne, div_self hhne]

/-- C3: normalizing a pixel coordinate inside a (h, w) frame and converting the
normalized coordinate back to pixels the way `draw_normalized_polygons` does
(scaling by (w - 1, h - 1) and truncating to integer) lands within 1 pixel of
the original coordinate on each axis, under both conventions. -/
theorem normalize_round_trip (px py h w : ℕ) (method : Bool)
    (hh : 2 ≤ h) (hw : 2 ≤ w) (hx : px < w) (hy : py < h) :
    |(polygon_norm_to_px ((normalize_xy [((px : ℚ), (py : ℚ))] (h, w) method).headD (0, 0))
        (h, w)).1 - px| ≤ 1
    ∧ |(polygon_norm_to_px ((normalize_xy [((px : ℚ), (py : ℚ))] (h, w) method).headD (0, 0))
        (h, w)).2 - py| ≤ 1 := by
  cases method
  · simp only [normalize_xy, if_neg (by simp : ¬(false = true)), List.map_cons,
      List.map_nil, List.headD_cons, polygon_norm_to_px]
    exact ⟨by rw [int32_trunc_edge_exact px w hw]; simp,
           by rw [int32_trunc_edge_exact py h hh]; simp⟩
  · simp only [normalize_xy, if_pos rfl, List.map_cons, List.map_nil,
      List.headD_cons, polygon_norm_to_px]
    exact ⟨int32_trunc_center_close px w hw hx, int32_trunc_center_close py h hh hy⟩

/-- Witness for C2 at x = 3, y = 1 in a 4-row, 5-column frame. -/
theorem normalize_xy_conventions_witness :
    (2 ≤ 4 ∧ 2 ≤ 5)
    ∧ normalize_xy [((3 : ℚ), (1 : ℚ))] (4, 5) true = [((3 + 1/2) / 5, (1 + 1/2) / 4)] := by
  refine ⟨by decide, ?_⟩
  exact (normalize_xy_conventions 3 1 4 5 (by decide) (by decide)).1

/-- Witness for C3 at pixel (3, 1) in a 4-row, 5-column frame, center convention. -/
theorem normalize_round_trip_witness :
    |(polygon_norm_to_px ((normalize_xy [((3 : ℚ), (1 : ℚ))] (4, 5) true).headD (0, 0))
        (4, 5)).1 - 3| ≤ 1
    ∧ |(polygon_norm_to_px ((normalize_xy [((3 : ℚ), (1 : ℚ))] (4, 5) true).headD (0, 0))
        (4, 5)).2 - 1| ≤ 1 :=
  normalize_round_trip 3 1 4 5 true (by decide) (by decide) (by decide) (by decide)

/-! ## Hint point selection (run_image.py, lines 348-354) -/

/-- Embedding of the hint-point selection in the main display loop: the hint
is the single foreground point when exactly one foreground point and no box
prompts are present, and absent (`none`) otherwise. -/
def point_hint_of (fg_xy_norm_list : List (ℚ × ℚ))
    (box_tlbr_norm_list : List ((ℚ × ℚ) × (ℚ × ℚ))) : Option (ℚ × ℚ) :=
  let only_one_fg_pt := fg_xy_norm_list.length = 1
  let no_box_prompt := box_tlbr_norm_list.length = 0
  if only_one_fg_pt ∧ no_box_prompt then fg_xy_norm_list.head? else none

/-- C4: the hint point is `some p` exactly when the prompt set is a single
foreground point `p` and no boxes; in every other case it is `none`. -/
theorem point_hint_iff (fg : List (ℚ × ℚ)) (boxes : List ((ℚ × ℚ) × (ℚ × ℚ)))
    (p : ℚ × ℚ) :
    (point_hint_of fg boxes = some p ↔ (fg = [p] ∧ boxes = []))
    ∧ (¬(fg.length = 1 ∧ boxes.length = 0) → point_hint_of fg boxes = none) := by
  constructor
  · constructor
    · intro hsome
      by_cases hc : fg.length = 1 ∧ boxes.length = 0
      · obtain ⟨q, hq⟩ := List.length_eq_one.mp hc.1
        have hboxes : boxes = [] := List.length_eq_zero.mp hc.2
        subst hq
        subst hboxes
        simp only [point_hint_of, if_pos hc, List.head?_cons,
          Option.some.injEq] at hsome
        exact ⟨by rw [hsome], rfl⟩
      · simp only [point_hint_of, if_neg hc] at hsome
        simp at hsome
    · rintro ⟨hfg, hboxes⟩
      subst hfg
      subst hboxes
      simp [point_hint_of]
  · intro hc
    simp only [point_hint_of, if_neg hc]

/-! ## Main display loop recompute gating (run_image.py) -/

/-- The per-tick change flags read from the UI controls in run_image.py:
`need_prompt_encode` from `uictrl.read_prompts()`, `is_mthresh_changed` from
the threshold slider, `is_invert_changed` from the invert button and
`is_mask_changed` from the mask-selection constraint. -/
structure TickFlags where
  need_prompt_encode : Bool
  is_mthresh_changed : Bool
  is_invert_changed : Bool
  is_mask_changed : Bool
deriving DecidableEq, Repr

/-- Which expensive computations actually ran during one pass of the main
display loop of run_image.py. -/
structure TickOps where
  encode_prompts_ran : Bool
  generate_masks_ran : Bool
  hires_mask_ran : Bool
  contour_extract_ran : Bool
deriving DecidableEq, Repr

/-- The post-processor control values passed to `mask_postprocessor.update`
on every tick (run_image.py, line 323).  The largest-only toggle and the
simplify, rounding and padding sliders are read with their change flags
discarded (lines 313, 318-320); only the invert flag among these also feeds
a change flag. -/
structure PostprocessSettings where
  use_largest_contour : Bool
  msimplify : ℚ
  mrounding : ℤ
  mpadding : ℤ
  use_inverted_mask : Bool
deriving DecidableEq, Repr

/-- Data carried across ticks of the main display loop: the selected hi-res
mask (`selected_mask_uint8`) and the contour output of the previous pass. -/
structure TickState (Mask Contours : Type) where
  selected_mask_uint8 : Mask
  mask_contours_norm : Contours

/-- Embedding of one pass of the main display loop of run_image.py (lines
323-354), restricted to the recompute-gating structure.  `hires` stands for
the result `uictrl.create_hires_mask_uint8(...)` would produce this tick.
`get_contours` is an opaque parameter standing for `get_contours_from_mask`
(lib/demo_helpers/contours.py, not under src/), returning the
`(ok_contours, contours)` pair; `postprocess` is an opaque parameter
standing for calling the `MaskPostProcessor` object
(lib/demo_helpers/mask_postprocessing.py, not under src/) right after
`update(use_largest_contour, msimplify, mrounding, mpadding,
use_inverted_mask)`, so it receives the settings of the current tick
together with the mask, the extracted contours and the hint point.
Per the source: the prompt-encode block (`encode_prompts` and
`generate_masks`) runs iff `need_prompt_encode`; the hi-res mask block runs
iff `need_mask_update = any(need_prompt_encode, is_mthresh_changed,
is_invert_changed, is_mask_changed)`; contour extraction and
post-processing run on every pass, on whatever `selected_mask_uint8`
currently holds and with the settings read this tick. -/
def run_tick {Mask Contours : Type}
    (get_contours : Mask → Bool × Contours)
    (postprocess : PostprocessSettings → Mask → Contours → Option (ℚ × ℚ) → Contours × Mask)
    (settings : PostprocessSettings)
    (fg_xy_norm_list : List (ℚ × ℚ)) (box_tlbr_norm_list : List ((ℚ × ℚ) × (ℚ × ℚ)))
    (hires : Mask) (flags : TickFlags) (st : TickState Mask Contours) :
    TickState Mask Contours × TickOps :=
  let need_mask_update := flags.need_prompt_encode || flags.is_mthresh_changed
      || flags.is_invert_changed || flags.is_mask_changed
  let selected_mask_uint8 := if need_mask_update then hires else st.selected_mask_uint8
  let final_mask_uint8 := selected_mask_uint8
  let extraction := get_contours final_mask_uint8
  let ok_contours := extraction.1
  let mask_contours_norm :=
    if ok_contours then
      (postprocess settings final_mask_uint8 extraction.2
        (point_hint_of fg_xy_norm_list box_tlbr_norm_list)).1
    else extraction.2
  (⟨selected_mask_uint8, mask_contours_norm⟩,
   ⟨flags.need_prompt_encode, flags.need_prompt_encode, need_mask_update, true⟩)

/-- C1 counterexample: on a tick where none of the four change flags is set,
the main loop still re-runs contour extraction (`get_contours_from_mask` is
called unconditionally on every pass), contradicting the claim that the
mask display recompute through contour extraction runs only when a flag is
set. -/
theorem run_tick_contour_always_runs :
    (run_tick (fun m : ℕ => (true, m)) (fun _ m c _ => (c, m))
        (PostprocessSettings.mk true 0 0 0 false) [] []
        0 (TickFlags.mk false false false false)
        (TickState.mk 0 0)).2.contour_extract_ran = true
    ∧ ((TickFlags.mk false false false false).need_prompt_encode
        || (TickFlags.mk false false false false).is_mthresh_changed
        || (TickFlags.mk false false false false).is_invert_changed
        || (TickFlags.mk false false false false).is_mask_changed) = false := by
  constructor
  · rfl
  · rfl

/-- C1 (amended): prompt encoding and mask regeneration run iff
`need_prompt_encode`; the hi-res mask recompute runs iff at least one of
the four change flags is set; contour extraction and post-processing run
on every tick with that tick's post-processor settings and prompt lists.
Consequently, a tick on which no flag is set and whose settings and prompt
lists equal those of the previous tick reuses the selected mask unchanged
and reproduces the previous tick's contour output. -/
theorem run_tick_gating {Mask Contours : Type}
    (get_contours : Mask → Bool × Contours)
    (postprocess : PostprocessSettings → Mask → Contours → Option (ℚ × ℚ) → Contours × Mask)
    (settings : PostprocessSettings)
    (fg : List (ℚ × ℚ)) (box : List ((ℚ × ℚ) × (ℚ × ℚ)))
    (hires1 hires2 : Mask) (flags1 : TickFlags) (st0 : TickState Mask Contours) :
    (run_tick get_contours postprocess settings fg box hires1 flags1 st0).2.encode_prompts_ran
        = flags1.need_prompt_encode
    ∧ (run_tick get_contours postprocess settings fg box hires1 flags1 st0).2.generate_masks_ran
        = flags1.need_prompt_encode
    ∧ (run_tick get_contours postprocess settings fg box hires1 flags1 st0).2.hires_mask_ran
        = (flags1.need_prompt_encode || flags1.is_mthresh_changed
            || flags1.is_invert_changed || flags1.is_mask_changed)
    ∧ (run_tick get_contours postprocess settings fg box hires1 flags1 st0).2.contour_extract_ran
        = true
    ∧ (run_tick get_contours postprocess settings fg box hires2
          (TickFlags.mk false false false false)
          (run_tick get_contours postprocess settings fg box hires1 flags1 st0).1).1.selected_mask_uint8
        = (run_tick get_contours postprocess settings fg box hires1 flags1 st0).1.selected_mask_uint8
    ∧ (run_tick get_contours postprocess settings fg box hires2
          (TickFlags.mk false false false false)
          (run_tick get_contours postprocess settings fg box hires1 flags1 st0).1).1.mask_contours_norm
        = (run_tick get_contours postprocess settings fg box hires1 flags1 st0).1.mask_contours_norm := by
  refine ⟨rfl, rfl, rfl, rfl, ?_, ?_⟩
  · simp [run_tick]
  · simp [run_tick]

/-! ## CheckerPattern compositor (lib/demo_helpers/ui/helpers/images.py) -/

/-- A single-channel (grayscale) image: a height, a width and a pixel
function.  Pixel values are bytes (naturals below 256 at well-formed use
sites). -/
structure GrayImage where
  h : ℕ
  w : ℕ
  pix : ℕ → ℕ → ℕ

/-- A three-channel (BGR) image. -/
structure BGRImage where
  h : ℕ
  w : ℕ
  pix : ℕ → ℕ → Fin 3 → ℕ

/-- Embedding of `cv2.cvtColor(..., cv2.COLOR_GRAY2BGR)`: replicates the
gray value into all three channels. -/
def gray2bgr (g : GrayImage) : BGRImage :=
  ⟨g.h, g.w, fun i j _ => g.pix i j⟩

/-- Embedding of `cv2.resize(..., interpolation=cv2.INTER_NEAREST_EXACT)`:
output pixel (i, j) samples the source at
`floor((i + 0.5) * src_dim / out_dim)` on each axis. -/
def resize_nearest_exact (g : GrayImage) (out_h out_w : ℕ) : GrayImage :=
  ⟨out_h, out_w, fun i j => g.pix ((2 * i + 1) * g.h / (2 * out_h)) ((2 * j + 1) * g.w / (2 * out_w))⟩

/-- Embedding of `cv2.copyMakeBorder(..., cv2.BORDER_WRAP)`: pads an image by
(t, b, l, r) pixels, filling the border by tiling the source periodically. -/
def copyMakeBorder_wrap (g : GrayImage) (t b l r : ℕ) : GrayImage :=
  ⟨t + g.h + b, l + g.w + r,
   fun i j => g.pix (((i : ℤ) - t).emod g.h).toNat (((j : ℤ) - l).emod g.w).toNat⟩

/-- Embedding of the numpy slice `pattern[0:frame_h, 0:frame_w]`. -/
def crop_to (g : GrayImage) (frame_h frame_w : ℕ) : GrayImage :=
  ⟨min frame_h g.h, min frame_w g.w, g.pix⟩

/-- Python `round`: round half to even (banker's rounding). -/
def py_round (q : ℚ) : ℤ :=
  let n := ⌊q⌋
  let f := q - n
  if f < 1/2 then n
  else if 1/2 < f then n + 1
  else if n % 2 = 0 then n else n + 1

/-- Embedding of the tile-brightness derivation in `CheckerPattern.__init__`:
percent arguments are forced into 0-to-100 via `min(abs(pct), 100)`, the two
tile values are `round(clip(mid - real_diff, 0, 255))` and
`round(clip(mid + real_diff, 0, 255))`, and `flipped`
swaps them. -/
def checker_colors (brightness_pct contrast_pct : ℚ) (flipped : Bool) : ℤ × ℤ :=
  let brightness := min |brightness_pct| 100
  let contrast := min |contrast_pct| 100
  let mid_color_uint8 := 255 * brightness / 100
  let max_diff_uint8 := min (255 - mid_color_uint8) mid_color_uint8
  let real_diff_uint8 := max_diff_uint8 * contrast / 100
  let color_a := py_round (max (min (mid_color_uint8 - real_diff_uint8) 255) 0)
  let color_b := py_round (max (min (mid_color_uint8 + real_diff_uint8) 255) 0)
  if flipped then (color_b, color_a) else (color_a, color_b)

/-- State of a `CheckerPattern` object: the base tile `self._base` and the
cached full-size pattern `self._full_pattern`. -/
structure CheckerPattern where
  base : GrayImage
  full_pattern : BGRImage

/-- Embedding of `CheckerPattern.__init__`: builds the 2-by-2 seed
`((color_a, color_b), (color_b, color_a))` (values cast to uint8), resizes it
to `checker_size_px` square with nearest-exact interpolation, and caches a
BGR copy as the initial full pattern. -/
def CheckerPattern.init (checker_size_px : ℕ) (brightness_pct contrast_pct : ℚ)
    (flipped : Bool) : CheckerPattern :=
  let colors := checker_colors brightness_pct contrast_pct flipped
  let seed : GrayImage :=
    ⟨2, 2, fun i j => (if (i + j) % 2 = 0 then colors.1 else colors.2).toNat % 256⟩
  let base_pattern := resize_nearest_exact seed checker_size_px checker_size_px
  ⟨base_pattern, gray2bgr base_pattern⟩

/-- Embedding of `CheckerPattern.draw`: if the cached full pattern already has
the requested size it is returned as-is and the state is untouched; otherwise
the base tile is wrap-padded to the target size, cropped (the sanity check for
frames smaller than the base tile), converted to BGR, cached and returned. -/
def CheckerPattern.draw (s : CheckerPattern) (frame_h frame_w : ℕ) :
    CheckerPattern × BGRImage :=
  if s.full_pattern.h ≠ frame_h ∨ s.full_pattern.w ≠ frame_w then
    let x_pad := frame_w - s.base.w
    let y_pad := frame_h - s.base.h
    let l := x_pad / 2
    let t := y_pad / 2
    let r := x_pad - l
    let b := y_pad - t
    let pattern := copyMakeBorder_wrap s.base t b l r
    let pattern := crop_to pattern frame_h frame_w
    let full := gray2bgr pattern
    (⟨s.base, full⟩, full)
  else
    (s, s.full_pattern)

/-- Embedding of `cv2.bitwise_not` on a byte: complement within 8 bits. -/
def bitwise_not8 (m : ℕ) : ℕ := 255 ^^^ m

/-- Embedding of `CheckerPattern.superimpose`: draws (and possibly re-caches)
a pattern matching the frame size, resizes the mask to the frame size if
needed, replicates it to three channels, and blends per pixel as
`(pattern AND NOT mask) OR (frame AND mask)`. -/
def CheckerPattern.superimpose (s : CheckerPattern) (other_frame : BGRImage)
    (mask : GrayImage) : CheckerPattern × BGRImage :=
  let drawn := s.draw other_frame.h other_frame.w
  let checker_pattern := drawn.2
  let is_same_size := mask.h = other_frame.h ∧ mask.w = other_frame.w
  let mask := if is_same_size then mask
              else resize_nearest_exact mask other_frame.h other_frame.w
  let mask3 := gray2bgr mask
  (drawn.1,
   ⟨other_frame.h, other_frame.w,
    fun i j c =>
      (checker_pattern.pix i j c &&& bitwise_not8 (mask3.pix i j c))
        ||| (other_frame.pix i j c &&& mask3.pix i j c)⟩)

/-- A byte and-ed with 255 is unchanged. -/
lemma and_255_of_lt (p : ℕ) (hp : p < 256) : p &&& 255 = p := by
  have h1 : p &&& (2 ^ 8 - 1) = p % 2 ^ 8 := Nat.and_pow_two_sub_one_eq_mod p 8
  norm_num at h1
  rw [h1, Nat.mod_eq_of_lt hp]

/-- C5: for a frame and mask of matching size, `superimpose` outputs, per
pixel and channel, `(pattern AND NOT mask) OR (frame AND mask)`; in
particular a mask byte of 0 selects the checker-pattern pixel and a mask
byte of 255 selects the frame pixel (for byte-valued inputs). -/
theorem superimpose_blend (s : CheckerPattern) (frame : BGRImage) (mask : GrayImage)
    (hmh : mask.h = frame.h) (hmw : mask.w = frame.w) (i j : ℕ) (c : Fin 3) :
    (s.superimpose frame mask).2.pix i j c
      = ((s.draw frame.h frame.w).2.pix i j c &&& (255 ^^^ mask.pix i j))
          ||| (frame.pix i j c &&& mask.pix i j)
    ∧ (mask.pix i j = 0 → (s.draw frame.h frame.w).2.pix i j c < 256 →
        (s.superimpose frame mask).2.pix i j c = (s.draw frame.h frame.w).2.pix i j c)
    ∧ (mask.pix i j = 255 → frame.pix i j c < 256 →
        (s.superimpose frame mask).2.pix i j c = frame.pix i j c) := by
  have hform : (s.superimpose frame mask).2.pix i j c
      = ((s.draw frame.h frame.w).2.pix i j c &&& (255 ^^^ mask.pix i j))
          ||| (frame.pix i j c &&& mask.pix i j) := by
    simp only [CheckerPattern.superimpose, if_pos (And.intro hmh hmw),
      gray2bgr, bitwise_not8]
  refine ⟨hform, fun hm0 hlt => ?_, fun hm255 hlt => ?_⟩
  · rw [hform, hm0]
    have h255 : (255 : ℕ) ^^^ 0 = 255 := by decide
    rw [h255, Nat.and_zero, Nat.or_zero, and_255_of_lt _ hlt]
  · rw [hform, hm255]
    have h0 : (255 : ℕ) ^^^ 255 = 0 := by decide
    rw [h0, Nat.and_zero, Nat.zero_or, and_255_of_lt _ hlt]

/-- C6: a `draw` call whose requested size equals the cached pattern's size
leaves the state unchanged and returns the cached pattern as-is, and a
`superimpose` call against a frame of the cached size likewise leaves the
compositor state (including the cache) unchanged. -/
theorem draw_memoization (s : CheckerPattern) (frame : BGRImage) (mask : GrayImage)
    (hh : s.full_pattern.h = frame.h) (hw : s.full_pattern.w = frame.w) :
    s.draw frame.h frame.w = (s, s.full_pattern)
    ∧ (s.superimpose frame mask).1 = s := by
  have hdraw : s.draw frame.h frame.w = (s, s.full_pattern) := by
    rw [CheckerPattern.draw, if_neg]
    push_neg
    exact ⟨hh, hw⟩
  refine ⟨hdraw, ?_⟩
  simp only [CheckerPattern.superimpose, hdraw]

/-- C10: `draw` returns an image of exactly the requested height and width,
including when the requested size is smaller than the base tile (the result
is cropped rather than returned at tile size). -/
theorem draw_output_shape (s : CheckerPattern) (frame_h frame_w : ℕ)
    (hh : 0 < frame_h) (hw : 0 < frame_w) :
    (s.draw frame_h frame_w).2.h = frame_h ∧ (s.draw frame_h frame_w).2.w = frame_w := by
  rw [CheckerPattern.draw]
  by_cases hcache : s.full_pattern.h ≠ frame_h ∨ s.full_pattern.w ≠ frame_w
  · rw [if_pos hcache]
    simp only [gray2bgr, crop_to, copyMakeBorder_wrap]
    constructor
    · simp only [Nat.min_def]
      split <;> omega
    · simp only [Nat.min_def]
      split <;> omega
  · rw [if_neg hcache]
    push_neg at hcache
    exact hcache

/-- Witness for C5 on a 1-by-1 frame with mask byte 255. -/
theorem superimpose_blend_witness :
    ((⟨1, 1, fun _ _ => 255⟩ : GrayImage).pix 0 0 = 255
      ∧ (⟨1, 1, fun _ _ _ => 37⟩ : BGRImage).pix 0 0 0 < 256)
    ∧ ((CheckerPattern.init 2 75 35 false).superimpose
        ⟨1, 1, fun _ _ _ => 37⟩ ⟨1, 1, fun _ _ => 255⟩).2.pix 0 0 0 = 37 := by
  refine ⟨⟨rfl, by decide⟩, ?_⟩
  exact (superimpose_blend (CheckerPattern.init 2 75 35 false)
    ⟨1, 1, fun _ _ _ => 37⟩ ⟨1, 1, fun _ _ => 255⟩ rfl rfl 0 0 0).2.2 rfl (by decide)

/-- Witness for C6: drawing at the cached 2-by-2 size returns the cache and
does not change the state. -/
theorem draw_memoization_witness :
    ((CheckerPattern.init 2 75 35 false).full_pattern.h
        = (⟨2, 2, fun _ _ _ => 9⟩ : BGRImage).h)
    ∧ (CheckerPattern.init 2 75 35 false).draw 2 2
        = (CheckerPattern.init 2 75 35 false, (CheckerPattern.init 2 75 35 false).full_pattern) := by
  refine ⟨rfl, ?_⟩
  exact (draw_memoization (CheckerPattern.init 2 75 35 false)
    ⟨2, 2, fun _ _ _ => 9⟩ ⟨2, 2, fun _ _ => 0⟩ rfl rfl).1

/-- Witness for C10: a 3-by-5 request against the default 64-pixel base tile
(strictly smaller than the tile) yields a 3-by-5 image. -/
theorem draw_output_shape_witness :
    (0 < 3 ∧ 0 < 5)
    ∧ ((CheckerPattern.init 64 75 35 false).draw 3 5).2.h = 3
    ∧ ((CheckerPattern.init 64 75 35 false).draw 3 5).2.w = 5 :=
  ⟨by decide, draw_output_shape (CheckerPattern.init 64 75 35 false) 3 5
    (by decide) (by decide)⟩

/-- Python rounding of a value in [0, 255] stays in [0, 255]. -/
lemma py_round_mem (q : ℚ) (h0 : 0 ≤ q) (h255 : q ≤ 255) :
    0 ≤ py_round q ∧ py_round q ≤ 255 := by
  have hn0 : (0 : ℤ) ≤ ⌊q⌋ := Int.floor_nonneg.mpr h0
  have hnle : ⌊q⌋ ≤ 255 := by
    have h := Int.floor_le_floor h255
    rwa [show ⌊(255 : ℚ)⌋ = 255 by norm_num] at h
  have hsucc : ¬(q - ⌊q⌋ < 1/2) → ⌊q⌋ + 1 ≤ 255 := by
    intro hf
    push_neg at hf
    have hfl : (⌊q⌋ : ℚ) ≤ q := Int.floor_le q
    have : (⌊q⌋ : ℚ) < 255 := by linarith
    have : ⌊q⌋ < 255 := by exact_mod_cast this
    omega
  rw [py_round]
  split_ifs with h1 h2 h3
  · exact ⟨hn0, hnle⟩
  · exact ⟨by omega, hsucc h1⟩
  · exact ⟨hn0, hnle⟩
  · exact ⟨by omega, hsucc h1⟩

/-- Each checker tile value, being a rounded clip to [0, 255], is a byte. -/
lemma py_round_clip_mem (v : ℚ) :
    0 ≤ py_round (max (min v 255) 0) ∧ py_round (max (min v 255) 0) ≤ 255 :=
  py_round_mem _ (le_max_right _ _) (max_le (min_le_right _ _) (by norm_num))

/-- C7 counterexample: `CheckerPattern.__init__` maps a brightness percentage
of -50 through `min(abs(-50), 100) = 50`, so the tile values equal those of
brightness 50 (namely (83, 172)) and differ from those of brightness 0
(namely (0, 0)); the claim that -50 is treated as 0 is false. -/
theorem checker_colors_neg_is_abs :
    checker_colors (-50) 35 false = checker_colors 50 35 false
    ∧ checker_colors (-50) 35 false = (83, 172)
    ∧ checker_colors 0 35 false = (0, 0)
    ∧ checker_colors (-50) 35 false ≠ checker_colors 0 35 false := by
  have h1 : checker_colors (-50) 35 false = (83, 172) := by
    norm_num [checker_colors, py_round]
  have h2 : checker_colors 50 35 false = (83, 172) := by
    norm_num [checker_colors, py_round]
  have h3 : checker_colors 0 35 false = (0, 0) := by
    norm_num [checker_colors, py_round]
  refine ⟨h1.trans h2.symm, h1, h3, ?_⟩
  rw [h1, h3]
  decide

/-- C7 (amended): the two tile brightness values are derived from brightness
and contrast percentages each mapped into [0, 100] by `min(abs(pct), 100)`
(so -50 is treated as 50, not 0), and each resulting tile value is a valid
byte in [0, 255]. -/
theorem checker_colors_clamped (b c : ℚ) (f : Bool) :
    checker_colors b c f = checker_colors (min |b| 100) (min |c| 100) f
    ∧ (0 ≤ min |b| 100 ∧ min |b| 100 ≤ 100)
    ∧ (0 ≤ min |c| 100 ∧ min |c| 100 ≤ 100)
    ∧ (0 ≤ (checker_colors b c f).1 ∧ (checker_colors b c f).1 ≤ 255)
    ∧ (0 ≤ (checker_colors b c f).2 ∧ (checker_colors b c f).2 ≤ 255) := by
  have hb0 : 0 ≤ min |b| 100 := le_min (abs_nonneg b) (by norm_num)
  have hc0 : 0 ≤ min |c| 100 := le_min (abs_nonneg c) (by norm_num)
  have hbabs : |min |b| 100| = min |b| 100 := abs_of_nonneg hb0
  have hcabs : |min |c| 100| = min |c| 100 := abs_of_nonneg hc0
  have hbmin : min (min |b| 100) 100 = min |b| 100 := by rw [min_assoc, min_self]
  have hcmin : min (min |c| 100) 100 = min |c| 100 := by rw [min_assoc, min_self]
  refine ⟨?_, ⟨hb0, min_le_right _ _⟩, ⟨hc0, min_le_right _ _⟩, ?_, ?_⟩
  · simp only [checker_colors, hbabs, hcabs, hbmin, hcmin]
  · cases f
    · simp only [checker_colors, Bool.false_eq_true, if_false]
      exact py_round_clip_mem _
    · simp only [checker_colors, if_true]
      exact py_round_clip_mem _
  · cases f
    · simp only [checker_colors, Bool.false_eq_true, if_false]
      exact py_round_clip_mem _
    · simp only [checker_colors, if_true]
      exact py_round_clip_mem _

/-! ## Mask selection (`get_best_mask_index`) and thresholding -/

/-- The error condition of the selection step. -/
inductive SelectionError where
  | noValidCandidate
deriving DecidableEq, Repr

/-- Modelled from the spec: the quality-score selection implemented by
`mask_decoder.get_best_mask_index` (reached through
`SAMV1Model.get_best_mask_index`, whose body lives in
`lib/v1_sam/mask_decoder_model.py`, not present under src/):
"select_best(quality_scores) -> index: index of the maximum value; on an
all-equal or empty input this is an error condition (SelectionError)". -/
def select_best (quality_scores : List ℚ) : Except SelectionError ℕ :=
  if quality_scores = [] ∨ ∀ v ∈ quality_scores, v = quality_scores.headD 0 then
    Except.error SelectionError.noValidCandidate
  else
    Except.ok (((List.range quality_scores.length).argmax
        (fun i => quality_scores.getD i 0)).getD 0)

/-- Modelled from the spec: "SelectionError ... fatal to that tick's
selection step only, falls back to index 0". -/
def select_best_with_fallback (quality_scores : List ℚ) : ℕ :=
  match select_best quality_scores with
  | Except.ok i => i
  | Except.error _ => 0

/-- C8: on a list with a unique maximum, the selection step yields the index
of the maximum (via `select_best` directly, or via the index-0 fallback in
the degenerate singleton case); on an all-equal or empty input `select_best`
reports `SelectionError` and the selection step falls back to index 0, a
total function with no other effect. -/
theorem select_best_spec (xs : List ℚ) (i : ℕ) (hi : i < xs.length)
    (huniq : ∀ j, j < xs.length → j ≠ i → xs.getD j 0 < xs.getD i 0) :
    select_best_with_fallback xs = i
    ∧ (∀ ys : List ℚ, (ys = [] ∨ ∀ v ∈ ys, v = ys.headD 0) →
        select_best ys = Except.error SelectionError.noValidCandidate
        ∧ select_best_with_fallback ys = 0) := by
  constructor
  · by_cases hdeg : xs = [] ∨ ∀ v ∈ xs, v = xs.headD 0
    · have hi0 : i = 0 := by
        rcases hdeg with hnil | hall
        · subst hnil
          simp at hi
        · by_contra hne
          have h2 : 1 < xs.length := by
            rcases Nat.lt_or_ge 1 xs.length with h | h
            · exact h
            · omega
          have hlt := huniq 0 (by omega) (Ne.symm hne)
          have hm0 : xs.getD 0 0 ∈ xs := by
            rw [List.getD_eq_getElem xs 0 (by omega)]
            exact List.getElem_mem _
          have hmi : xs.getD i 0 ∈ xs := by
            rw [List.getD_eq_getElem xs 0 hi]
            exact List.getElem_mem _
          rw [hall _ hm0, hall _ hmi] at hlt
          exact lt_irrefl _ hlt
      rw [select_best_with_fallback, select_best, if_pos hdeg, hi0]
    · rw [select_best_with_fallback, select_best, if_neg hdeg]
      push_neg at hdeg
      have hnil : xs ≠ [] := hdeg.1
      have hlen : xs.length ≠ 0 := fun h => hnil (List.length_eq_zero.mp h)
      have hrange : (List.range xs.length) ≠ [] := by
        simp [List.range_eq_nil, hlen]
      obtain ⟨m, hm⟩ : ∃ m, (List.range xs.length).argmax
          (fun j => xs.getD j 0) = some m := by
        rcases ho : (List.range xs.length).argmax (fun j => xs.getD j 0) with _ | m
        · exact absurd (List.argmax_eq_none.mp ho) hrange
        · exact ⟨m, rfl⟩
      have hmlt : m < xs.length := by
        have := List.argmax_mem hm
        simpa [List.mem_range] using this
      have hile : xs.getD i 0 ≤ xs.getD m 0 := by
        have hmem : i ∈ List.range xs.length := List.mem_range.mpr hi
        exact not_lt.mp (List.not_lt_of_mem_argmax hmem hm)
      have hmi : m = i := by
        by_contra hne
        exact absurd hile (not_le.mpr (huniq m hmlt hne))
      rw [hm]
      simpa using hmi
  · intro ys hys
    have herr : select_best ys = Except.error SelectionError.noValidCandidate := by
      rw [select_best, if_pos hys]
    exact ⟨herr, by rw [select_best_with_fallback, herr]⟩

/-- Witness for C8 on the score list [1, 3, 2] whose unique maximum sits at
index 1, and on the all-equal list [2, 2]. -/
theorem select_best_spec_witness :
    select_best_with_fallback [(1 : ℚ), 3, 2] = 1
    ∧ select_best [(2 : ℚ), 2] = Except.error SelectionError.noValidCandidate
    ∧ select_best_with_fallback [(2 : ℚ), 2] = 0 := by
  have h := select_best_spec [(1 : ℚ), 3, 2] 1 (by norm_num)
    (by
      intro j hj hne
      simp only [List.length_cons, List.length_nil] at hj
      interval_cases j
      · norm_num
      · exact absurd rfl hne
      · norm_num)
  have h2 := h.2 [(2 : ℚ), 2] (Or.inr (by intro v hv; simp at hv; rcases hv with h | h <;> simp [h]))
  exact ⟨h.1, h2.1, h2.2⟩

/-- Modelled from the spec: the mask thresholding performed inside
`uictrl.create_hires_mask_uint8` (in `lib/demo_helpers/shared_ui_layout.py`,
not present under src/): "threshold(score_map, cutoff) -> binary_mask: pixel
is foreground iff score > cutoff; ties at exactly cutoff are background". -/
def threshold (score_map : ℕ → ℕ → ℚ) (cutoff : ℚ) : ℕ → ℕ → Bool :=
  fun y x => decide (cutoff < score_map y x)

/-- C9: a pixel is foreground iff its score is strictly greater than the
cutoff, a score exactly equal to the cutoff is background, and an all-zero
score map thresholded at cutoff 0 is all background. -/
theorem threshold_spec (score_map : ℕ → ℕ → ℚ) (cutoff : ℚ) (y x : ℕ) :
    (threshold score_map cutoff y x = true ↔ cutoff < score_map y x)
    ∧ (score_map y x = cutoff → threshold score_map cutoff y x = false)
    ∧ (∀ j i, threshold (fun _ _ => 0) 0 j i = false) := by
  refine ⟨decide_eq_true_iff, fun heq => ?_, fun j i => ?_⟩
  · simp [threshold, heq]
  · simp [threshold]

/-- Witness for C9 at pixel (0, 0) of an all-zero score map with cutoff 0. -/
theorem threshold_spec_witness :
    ((fun _ _ => (0 : ℚ)) 0 0 = (0 : ℚ))
    ∧ threshold (fun _ _ => (0 : ℚ)) 0 0 0 = false :=
  ⟨rfl, (threshold_spec (fun _ _ => (0 : ℚ)) 0 0 0).2.1 rfl⟩

/-- Witness for C4: a single foreground point with no boxes yields that
point as the hint; empty prompts yield no hint. -/
theorem point_hint_iff_witness :
    point_hint_of [((1 : ℚ)/2, (1 : ℚ)/3)] [] = some ((1 : ℚ)/2, (1 : ℚ)/3)
    ∧ point_hint_of [] ([] : List ((ℚ × ℚ) × (ℚ × ℚ))) = none := by
  constructor
  · exact (point_hint_iff [((1 : ℚ)/2, (1 : ℚ)/3)] [] ((1 : ℚ)/2, (1 : ℚ)/3)).1.mpr
      ⟨rfl, rfl⟩
  · exact (point_hint_iff [] [] ((0 : ℚ), (0 : ℚ))).2 (by simp)

end MuggledSam
